import Mathlib

/-!
Verification development for the `jp_visa_public` appointment-calendar
watcher.  The definitions below are a shallow embedding of the Python
source (`jp_visa_tool.py`): pure string processing, date arithmetic and
the session-loop decision logic are translated into executable Lean
functions; page interactions are modelled by explicit page-state
parameters; code that can raise returns `Except`.
-/

namespace JpVisa

/-! ## String utilities (`normalize_ws`, Python `str.strip`) -/

/-- Python whitespace (`\s` and `str.strip`): ASCII whitespace plus the
vertical tab, form feed, and the ideographic space U+3000 that appears on
the target page. -/
def pyIsSpace (c : Char) : Bool :=
  c.isWhitespace || c == '\x0b' || c == '\x0c' || c.toNat == 0x3000

/-- Embedding of `normalize_ws`: `re.sub(r"\s+", "", s).strip()` removes
every whitespace character. -/
def normalize_ws (s : String) : String :=
  String.mk (s.toList.filter (fun c => !(pyIsSpace c)))

/-- Embedding of Python `str.strip` on a character list. -/
def pyStrip (l : List Char) : List Char :=
  ((l.dropWhile pyIsSpace).reverse.dropWhile pyIsSpace).reverse

/-- Numeric value of an ASCII digit character. -/
def digitVal (c : Char) : Nat := c.toNat - 48

/-! ## Month-header parsing (`get_year_month`, `get_month_label`)

The Python code runs `re.search(r"(\d{4})年(\d{1,2})月", txt)` on the
normalized header text and raises `RuntimeError` when there is no match.
`matchYMHere` tries the pattern at one position (with the greedy
one-or-two digit month and its backtracking); `searchYM` scans positions
left to right as `re.search` does. -/

/-- Try to match `(\d{4})年(\d{1,2})月` starting at the head of the list. -/
def matchYMHere : List Char → Option (Nat × Nat)
  | a :: b :: c :: d :: k :: rest =>
    if a.isDigit && b.isDigit && c.isDigit && d.isDigit && k == '年' then
      let y := 1000 * digitVal a + 100 * digitVal b + 10 * digitVal c + digitVal d
      match rest with
      | e :: ts =>
        if e.isDigit then
          match ts with
          | f :: us =>
            if f.isDigit then
              match us with
              | g :: _ => if g == '月' then some (y, 10 * digitVal e + digitVal f) else none
              | [] => none
            else if f == '月' then some (y, digitVal e)
            else none
          | [] => none
        else none
      | [] => none
    else none
  | _ => none

/-- Leftmost search for the year-month pattern, as `re.search`. -/
def searchYM : List Char → Option (Nat × Nat)
  | [] => none
  | c :: rest =>
    match matchYMHere (c :: rest) with
    | some ym => some ym
    | none => searchYM rest

/-- Embedding of `get_year_month`: normalize the header text, search for
the `(\d{4})年(\d{1,2})月` pattern, raise (`Except.error`) when absent. -/
def get_year_month (txt : String) : Except String (Nat × Nat) :=
  let t := normalize_ws txt
  match searchYM t.toList with
  | some ym => Except.ok ym
  | none => Except.error ("Cannot parse year/month from header: " ++ t)

/-- Python `str(m).zfill(2)`. -/
def pad2 (n : Nat) : String :=
  if n < 10 then "0" ++ toString n else toString n

/-- Embedding of `get_month_label`: renders the parsed header back to the
canonical label string used as the `ScanResult` key. -/
def get_month_label (txt : String) : Except String String :=
  match get_year_month txt with
  | Except.ok (y, m) => Except.ok (toString y ++ "年" ++ pad2 m ++ "月")
  | Except.error e => Except.error e

/-! ## Calendar date model (`datetime.date`)

`available_dates_current_month` builds `date(year, month, day)` (which
raises `ValueError` on invalid components), formats it with
`date.isoformat()` and computes `date.weekday()` (Monday = 0) to index
`DOW_EN`.  The proleptic-Gregorian ordinal below matches
`date.toordinal`, with `date(1, 1, 1)` a Monday. -/

/-- Gregorian leap year, as used by `datetime.date`. -/
def isLeapYear (y : Nat) : Bool :=
  y % 4 == 0 && (y % 100 != 0 || y % 400 == 0)

/-- Number of days in a month of the Gregorian calendar (0 for an invalid
month number). -/
def daysInMonth (y m : Nat) : Nat :=
  if m = 1 ∨ m = 3 ∨ m = 5 ∨ m = 7 ∨ m = 8 ∨ m = 10 ∨ m = 12 then 31
  else if m = 4 ∨ m = 6 ∨ m = 9 ∨ m = 11 then 30
  else if m = 2 then (if isLeapYear y then 29 else 28)
  else 0

/-- The components accepted by `datetime.date(y, m, d)`; anything else
raises `ValueError`. -/
def dateValid (y m d : Nat) : Prop :=
  1 ≤ y ∧ y ≤ 9999 ∧ 1 ≤ m ∧ m ≤ 12 ∧ 1 ≤ d ∧ d ≤ daysInMonth y m

instance (y m d : Nat) : Decidable (dateValid y m d) := by
  unfold dateValid; infer_instance

/-- Days in the years strictly before `y` (proleptic Gregorian). -/
def daysBeforeYear (y : Nat) : Nat :=
  365 * (y - 1) + (y - 1) / 4 - (y - 1) / 100 + (y - 1) / 400

/-- Days in the months of year `y` strictly before month `m`. -/
def daysBeforeMonth (y m : Nat) : Nat :=
  ((List.range m).filter (fun k => 1 ≤ k)).foldl (fun acc k => acc + daysInMonth y k) 0

/-- `date.toordinal()`: day number with `date(1, 1, 1) = 1`. -/
def dayOrdinal (y m d : Nat) : Nat :=
  daysBeforeYear y + daysBeforeMonth y m + d

/-- `date.weekday()`: Monday = 0 ... Sunday = 6. -/
def weekdayOf (y m d : Nat) : Nat :=
  (dayOrdinal y m d + 6) % 7

/-- The `DOW_EN` table from the source. -/
def DOW_EN : List String :=
  ["Monday", "Tuesday", "Wednesday", "Thursday", "Friday", "Saturday", "Sunday"]

/-- The weekday name attached to an available date. -/
def dowName (y m d : Nat) : String :=
  DOW_EN.getD (weekdayOf y m d) ""

/-- Python `"%04d"` padding as used by `date.isoformat()` for the year. -/
def pad4 (n : Nat) : String :=
  if n < 10 then "000" ++ toString n
  else if n < 100 then "00" ++ toString n
  else if n < 1000 then "0" ++ toString n
  else toString n

/-- `date.isoformat()`: `YYYY-MM-DD`. -/
def isoDate (y m d : Nat) : String :=
  pad4 y ++ "-" ++ pad2 m ++ "-" ++ pad2 d

/-! ## Day-number extraction (`re.search(r"\b(\d{1,2})\b", text)`)

The scanner takes the stripped inner text of the day cell containing a
marker and extracts the first one-or-two digit number bounded by word
boundaries.  `matchTwoOrOne` performs the greedy match with backtracking
at one position whose preceding character is a non-word character (the
start boundary; digits are word characters, so the position can only
match when the previous character is not a word character);
`searchDayAux` scans positions left to right threading the
word-character status of the previous character. -/

/-- Python regex word character (`\w`), on the code points this page
produces: ASCII alphanumerics und underscore, plus the kana and CJK
blocks. -/
def isWordChar (c : Char) : Bool :=
  c.isAlphanum || c == '_' ||
  (0x3040 ≤ c.toNat && c.toNat ≤ 0x30FF) ||
  (0x4E00 ≤ c.toNat && c.toNat ≤ 0x9FFF)

/-- The word boundary `\b` after a digit: end of text or a non-word
character. -/
def endBoundary : List Char → Bool
  | [] => true
  | c :: _ => !(isWordChar c)

/-- Greedy `(\d{1,2})\b` at the current position (start boundary already
established by the caller): try two digits, backtrack to one. -/
def matchTwoOrOne : List Char → Option Nat
  | [] => none
  | c1 :: rest =>
    if c1.isDigit then
      match rest with
      | [] => some (digitVal c1)
      | c2 :: rest2 =>
        if c2.isDigit && endBoundary rest2 then some (10 * digitVal c1 + digitVal c2)
        else if !(isWordChar c2) then some (digitVal c1)
        else none
    else none

/-- Leftmost search for `\b(\d{1,2})\b`; `prevWord` records whether the
character before the current position is a word character. -/
def searchDayAux (prevWord : Bool) : List Char → Option Nat
  | [] => none
  | c :: rest =>
    match (if prevWord then none else matchTwoOrOne (c :: rest)) with
    | some d => some d
    | none => searchDayAux (isWordChar c) rest

/-- `re.search(r"\b(\d{1,2})\b", text)` returning the matched number. -/
def searchDay (l : List Char) : Option Nat := searchDayAux false l

/-! ## Month scan (`available_dates_current_month`) -/

/-- Processing of one marker day cell: strip its text, extract the first
bounded one-or-two digit number (`continue` when absent), build the
calendar date (`continue` on `ValueError`), render ISO date and weekday
name. -/
def extract_entry (year month : Nat) (text : String) : Option (String × String) :=
  match searchDay (pyStrip text.toList) with
  | none => none
  | some day =>
    if dateValid year month day then
      some (isoDate year month day, dowName year month day)
    else none

/-- Python string comparison: lexicographic on code points. -/
def strLtList : List Char → List Char → Bool
  | [], [] => false
  | [], _ :: _ => true
  | _ :: _, [] => false
  | a :: as, b :: bs =>
    if a.toNat < b.toNat then true
    else if b.toNat < a.toNat then false
    else strLtList as bs

/-- Python `<` on strings. -/
def strLt (a b : String) : Bool := strLtList a.toList b.toList

/-- Python tuple comparison on `(iso_date, weekday_name)` pairs, as used
by `sorted`. -/
def pairLt (a b : String × String) : Bool :=
  strLt a.1 b.1 || (a.1 == b.1 && strLt a.2 b.2)

/-- Insertion into a strictly sorted duplicate-free list, skipping an
element already present. -/
def sortedInsert (x : String × String) : List (String × String) → List (String × String)
  | [] => [x]
  | y :: ys =>
    if pairLt x y then x :: y :: ys
    else if x = y then y :: ys
    else y :: sortedInsert x ys

/-- `sorted(set(l))`: the strictly increasing enumeration of the distinct
elements of `l`. -/
def sorted_set (l : List (String × String)) : List (String × String) :=
  l.foldr sortedInsert []

/-- Embedding of `available_dates_current_month`: `texts` is the list of
stripped-to-be inner texts of the day cells containing a circle marker,
in DOM order; the displayed month is `(year, month)`. -/
def available_dates_current_month (year month : Nat) (texts : List String) :
    List (String × String) :=
  sorted_set (texts.filterMap (extract_entry year month))

/-! ## ScanResult, availability signature and diff

`scan_months` returns a Python dict mapping month label to the month's
list of `(iso_date, weekday)` pairs; a dict is an insertion-ordered
association list with unique keys.  The session loop computes
`sig = tuple((m, tuple(v)) for m, v in results.items())` and compares it
with `!=` against the previously sent signature. -/

/-- A scan result: insertion-ordered association list from month label to
the month's available dates. -/
abbrev ScanResult := List (String × List (String × String))

/-- The availability signature `tuple((m, tuple(v)) for m, v in
results.items())`: the entries in dict iteration (= insertion) order. -/
def availability_signature (results : ScanResult) : ScanResult :=
  results.map (fun mv => (mv.1, mv.2))

/-- The change test the session loop performs: `sig != last_sig`. -/
def diff (cur prev : ScanResult) : Bool :=
  decide (availability_signature cur ≠ availability_signature prev)

/-- Two scan results carry the same per-month content: every month label
is mapped to the same date list (or absent from both). -/
def sameContent (A B : ScanResult) : Prop :=
  ∀ k : String, A.lookup k = B.lookup k

/-- Keys of a scan result. -/
def scanKeys (A : ScanResult) : List String := A.map Prod.fst

/-! ## Delay generator (`jittered_gaussian_delay`)

`random.gauss(mean, std)` is `mean + std * z` for a standard normal
sample `z`, and `random.uniform(-2, 2)` is a sample `u`; the function
returns `max(5, int(delay))` where `int` truncates toward zero.  The
real-valued samples are modelled as rational parameters. -/

/-- Python `int()` on a rational: truncation toward zero. -/
def pyTrunc (q : ℚ) : Int :=
  if 0 ≤ q then q.floor else -((-q).floor)

/-- Embedding of `jittered_gaussian_delay`: `z` is the standard normal
sample inside `random.gauss`, `u` the `random.uniform(-2, 2)` sample. -/
def jittered_gaussian_delay (mean std z u : ℚ) : Int :=
  max 5 (pyTrunc (mean + std * z + u))

/-! ## Session loop cycle (`run_browser_session` body)

One poll cycle inspects the fresh scan result, decides whether to send,
and picks the sleep policy.  The module imports bind the (misspelled)
name `RECIEVER_EMAIL`; the call site of `send_qq_email` reads the global
name `RECEIVER_EMAIL`.  CPython resolves each global name when the
argument is evaluated, raising `NameError` for an unbound name, so the
embedding looks the referenced names up in the module's global
namespace. -/

/-- The names bound at module level in `jp_visa_tool.py` (imports,
configuration constants and function definitions). -/
def module_globals : List String :=
  ["asyncio", "random", "re", "smtplib", "ssl", "logging", "hashlib",
   "datetime", "date", "Path", "Dict", "List", "Tuple",
   "MIMEText", "MIMEMultipart", "Header", "formataddr", "async_playwright",
   "QQ_SENDER_EMAIL", "QQ_AUTH_CODE", "RECIEVER_EMAIL",
   "BASE_DIR", "LOG_DIR", "LOG_FILE", "logger", "log",
   "URL", "PROFILE_DIR", "SCAN_NEXT_MONTHS",
   "NO_AVAIL_MEAN_SECONDS", "NO_AVAIL_STD_SECONDS",
   "AFTER_EMAIL_MEAN_SECONDS", "AFTER_EMAIL_STD_SECONDS",
   "CRASH_RESTART_MEAN_SECONDS", "CRASH_RESTART_STD_SECONDS",
   "NEXT_SELECTOR", "MONTH_LABEL_SELECTOR", "CAL_TABLE_SELECTOR",
   "CIRCLE_ICON_SUBSTR", "DOW_EN",
   "normalize_ws", "jittered_gaussian_delay", "send_qq_email",
   "_calendar_fingerprint", "_wait_calendar_changed_and_stable",
   "ensure_category_only", "get_year_month", "get_month_label",
   "click_next_month", "available_dates_current_month", "scan_months",
   "format_email", "refresh_and_reselect", "run_browser_session", "main"]

/-- Which sleep policy a cycle picks. -/
inductive DelayPolicy where
  | afterEmail
  | noAvail
deriving DecidableEq

/-- One poll cycle of the session loop, after `scan_months` returned
`results` with `last_signature` carried over from the previous cycle.
Returns whether an email was sent, the new `last_signature`, and the
sleep policy used; `Except.error` models an exception propagating out of
the cycle (which aborts the session).  The arguments of the
`send_qq_email` call are evaluated left to right, each resolving a
global name. -/
def session_step (results : ScanResult) (last_signature : Option ScanResult) :
    Except String (Bool × Option ScanResult × DelayPolicy) :=
  let has_avail := results.any (fun mv => !mv.2.isEmpty)
  if has_avail then
    let sig := availability_signature results
    if some sig ≠ last_signature then
      if "QQ_SENDER_EMAIL" ∈ module_globals then
        if "QQ_AUTH_CODE" ∈ module_globals then
          if "RECEIVER_EMAIL" ∈ module_globals then
            Except.ok (true, some sig, DelayPolicy.afterEmail)
          else Except.error "NameError: name RECEIVER_EMAIL is not defined"
        else Except.error "NameError: name QQ_AUTH_CODE is not defined"
      else Except.error "NameError: name QQ_SENDER_EMAIL is not defined"
    else Except.ok (false, last_signature, DelayPolicy.afterEmail)
  else Except.ok (false, last_signature, DelayPolicy.noAvail)

/-! ## Month navigation (`click_next_month`)

The function reads the label, clicks the next control (with a forced
click as exception fallback), waits, re-reads the label; when the label
is unchanged it performs a script-driven (`page.evaluate`) click and
re-reads once more, then logs and returns whatever label is now shown —
there is no raise on a still-unchanged label.  The page is modelled by
the three header texts the function can observe: `h0` before any click,
`h1` after the standard click, `h2` after the script click.  The
returned flag records whether the script fallback was attempted. -/

/-- Embedding of `click_next_month` over the observed header texts. -/
def click_next_month (h0 h1 h2 : String) : Except String (Bool × String) :=
  match get_month_label h0 with
  | Except.error e => Except.error e
  | Except.ok before =>
    match get_month_label h1 with
    | Except.error e => Except.error e
    | Except.ok after =>
      if after = before then
        match get_month_label h2 with
        | Except.error e => Except.error e
        | Except.ok after2 => Except.ok (true, after2)
      else Except.ok (false, after)

/-! ## Category Reconciler (`ensure_category_only`)

After the already-selected grace check, the function runs
`for attempt in range(1, 4)`; each iteration either completes the
selection (returning) or catches the exception, logs, invokes
`page.screenshot` (itself guarded, but invoked once per failed attempt),
pauses and continues; falling off the loop raises `RuntimeError`.
`attemptRaises a` tells whether attempt number `a` raises; the result
records the outcome together with the number of attempts made and the
number of screenshot invocations. -/

/-- The `for attempt in range(1, 4)` retry loop over the listed attempt
numbers. -/
def select_attempts_go (attemptRaises : Nat → Bool) :
    List Nat → Nat → Nat → Except String Unit × Nat × Nat
  | [], att, scr =>
    (Except.error "Failed to select VISA Application category after 3 attempts", att, scr)
  | a :: rest, att, scr =>
    if attemptRaises a then select_attempts_go attemptRaises rest (att + 1) (scr + 1)
    else (Except.ok (), att + 1, scr)

/-- Embedding of `ensure_category_only`: `alreadySelected` is whether the
grace-timeout wait for the category text succeeds (the early-return
path); otherwise the three-attempt loop runs. -/
def ensure_category_only (alreadySelected : Bool) (attemptRaises : Nat → Bool) :
    Except String Unit × Nat × Nat :=
  if alreadySelected then (Except.ok (), 0, 0)
  else select_attempts_go attemptRaises [1, 2, 3] 0 0

/-! ## Month window scan (`scan_months`)

The page is modelled by the sequence of month views reachable by the
next-month control (`months j` is the view after `j` effective
advances) together with `advanceOk i`, whether the `i`-th
`click_next_month` call actually moved the view (a stalled click leaves
it in place; `click_next_month` does not raise in that case).  The view
index after `i` clicks is `posAfter`; it only ever grows, since the scan
never issues a backward navigation. -/

/-- A month view: the header label and the dates the marker scan of that
view produces. -/
structure Page where
  months : Nat → String × List (String × String)
  advanceOk : Nat → Bool

/-- View position after the first `i` next-month clicks. -/
def posAfter (pg : Page) : Nat → Nat
  | 0 => 0
  | i + 1 => posAfter pg i + (if pg.advanceOk i then 1 else 0)

/-- Python dict insertion: replace the value of an existing key in place,
otherwise append the new binding. -/
def dictInsert (d : ScanResult) (k : String) (v : List (String × String)) : ScanResult :=
  if d.any (fun p => p.1 == k) then
    d.map (fun p => if p.1 == k then (k, v) else p)
  else d ++ [(k, v)]

/-- The `for i in range(SCAN_NEXT_MONTHS + 1)` loop of `scan_months`:
`i` is the current iteration index, `k` the number of iterations still
to come after this one (so `k > 0` exactly when `i < SCAN_NEXT_MONTHS`
and the iteration ends with a next-month click).  Returns the dict
together with the number of month reads and of next-month clicks
performed. -/
def scan_go (pg : Page) : Nat → Nat → ScanResult → ScanResult × Nat × Nat
  | i, 0, found =>
    (dictInsert found (pg.months (posAfter pg i)).1 (pg.months (posAfter pg i)).2, 1, 0)
  | i, k + 1, found =>
    let mv := pg.months (posAfter pg i)
    let r := scan_go pg (i + 1) k (dictInsert found mv.1 mv.2)
    (r.1, r.2.1 + 1, r.2.2 + 1)

/-- The `SCAN_NEXT_MONTHS` configuration constant. -/
def SCAN_NEXT_MONTHS : Nat := 3

/-- Embedding of `scan_months`: scan the current view plus
`SCAN_NEXT_MONTHS` forward views. -/
def scan_months (pg : Page) : ScanResult × Nat × Nat :=
  scan_go pg 0 SCAN_NEXT_MONTHS []

/-! ## Report formatting (`format_email`) -/

/-- The `URL` configuration constant. -/
def URL : String := "https://toronto.rsvsys.jp/reservations/calendar"

/-- The lines a non-empty month contributes: the month header, one
indented line per date, and a blank separator line. -/
def month_block (mv : String × List (String × String)) : List String :=
  (mv.1 ++ ":") :: (mv.2.map (fun dd => "  - " ++ dd.1 ++ " (" ++ dd.2 ++ ")") ++ [""])

/-- The body of the `for month, items in results.items()` loop: skip an
empty month, otherwise append the month's lines and add its date count
to the running total. -/
def format_step (acc : List String × Nat) (mv : String × List (String × String)) :
    List String × Nat :=
  if mv.2.isEmpty then acc
  else (acc.1 ++ month_block mv, acc.2 + mv.2.length)

/-- Embedding of `format_email`; `now` is the already rendered
`datetime.now().strftime("%Y-%m-%d %H:%M:%S")` clock value. -/
def format_email (now : String) (results : ScanResult) : String :=
  let acc := results.foldl format_step (["Available visa appointment dates:\n"], 0)
  if acc.2 = 0 then "No available dates."
  else
    String.intercalate "\n"
      (acc.1 ++ ["Total: " ++ toString acc.2, "Checked at: " ++ now, "Page: " ++ URL])

/-! ## Cheap calendar fingerprints (Python baseline vs in-page JS)

`ensure_category_only` builds the baseline
`f"{len(old_html)}:{old_html[:64]}:{old_html[-64:] if len(old_html) >= 64 else old_html}"`
over the Python string (a sequence of code points), while the
`wait_for_function` predicate computes
`html.length + ":" + html.slice(0,64) + ":" + html.slice(-64)` over the
JS string (a sequence of UTF-16 code units); the Python baseline is
marshalled to JS as its UTF-16 encoding before the `!==` comparison.
Both sides are therefore compared as lists of UTF-16 code units. -/

/-- Decimal digit character. -/
def decDigit (d : Nat) : Char :=
  match d with
  | 0 => '0' | 1 => '1' | 2 => '2' | 3 => '3' | 4 => '4'
  | 5 => '5' | 6 => '6' | 7 => '7' | 8 => '8' | _ => '9'

/-- Decimal rendering with explicit fuel (always sufficient when the
fuel exceeds the number of digits). -/
def natDecimalAux : Nat → Nat → List Char
  | 0, _ => []
  | fuel + 1, n =>
    if n < 10 then [decDigit n]
    else natDecimalAux fuel (n / 10) ++ [decDigit (n % 10)]

/-- Decimal rendering of a natural number, shared by Python `f"{n}"` and
JS template interpolation of a number. -/
def natDecimal (n : Nat) : List Char := natDecimalAux (n + 1) n

/-- UTF-16 code units of one code point. -/
def utf16Units (c : Char) : List Nat :=
  if c.toNat < 0x10000 then [c.toNat]
  else [0xD800 + (c.toNat - 0x10000) / 0x400, 0xDC00 + (c.toNat - 0x10000) % 0x400]

/-- UTF-16 encoding of a code-point sequence. -/
def utf16Encode (l : List Char) : List Nat :=
  (l.map utf16Units).flatten

/-- The Python baseline fingerprint built in `ensure_category_only`,
over the code points of the calendar HTML. -/
def python_cheap_fp (html : List Char) : List Char :=
  natDecimal html.length ++ [':'] ++ html.take 64 ++ [':'] ++
    (if 64 ≤ html.length then html.drop (html.length - 64) else html)

/-- The fingerprint the in-page JS predicate of
`_wait_calendar_changed_and_stable` computes, over the UTF-16 code units
of the same HTML (`String.prototype.slice` counts code units;
`slice(-64)` clamps at the start of the string). -/
def js_cheap_fp (html : List Char) : List Nat :=
  let u := utf16Encode html
  (natDecimal u.length).map Char.toNat ++ [58] ++ u.take 64 ++ [58] ++
    u.drop (u.length - 64)

/-! ## Theorems -/

theorem availability_signature_id (r : ScanResult) : availability_signature r = r :=
  List.map_id r

/-- C8: for every configured mean and standard deviation and every pair of
random samples — including ones making the Gaussian draw plus jitter
negative — `jittered_gaussian_delay` returns an integer that is at least
5. -/
theorem C8_delay_floor (mean std z u : ℚ) : 5 ≤ jittered_gaussian_delay mean std z u :=
  le_max_left 5 (pyTrunc (mean + std * z + u))

/-- C6: `get_year_month` parses the header `2025年5月` to exactly
`(2025, 5)`, and returns a parse error (never a value) on any header
whose normalized text contains no `(\d{4})年(\d{1,2})月` match — for
example `May 2025`. -/
theorem C6_header_parse :
    get_year_month "2025年5月" = Except.ok (2025, 5) ∧
    ∀ s : String, searchYM (normalize_ws s).toList = none →
      get_year_month s =
        Except.error ("Cannot parse year/month from header: " ++ normalize_ws s) := by
  refine ⟨rfl, fun s h => ?_⟩
  simp only [get_year_month, h]

theorem C6_header_parse_witness :
    get_year_month "May 2025" =
      Except.error "Cannot parse year/month from header: May2025" :=
  C6_header_parse.2 "May 2025" rfl

/-- C4: when the category is not already selected and every `Selecting`
attempt raises, `ensure_category_only` makes exactly 3 attempts, invokes
the screenshot capture exactly 3 times, and ends by raising the fatal
`RuntimeError` (so a fourth attempt never happens). -/
theorem C4_retry_exhaustion (f : Nat → Bool)
    (h1 : f 1 = true) (h2 : f 2 = true) (h3 : f 3 = true) :
    ensure_category_only false f =
      (Except.error "Failed to select VISA Application category after 3 attempts", 3, 3) := by
  simp [ensure_category_only, select_attempts_go, h1, h2, h3]

theorem C4_retry_exhaustion_witness :
    ensure_category_only false (fun _ => true) =
      (Except.error "Failed to select VISA Application category after 3 attempts", 3, 3) :=
  C4_retry_exhaustion (fun _ => true) rfl rfl rfl

/-- C9: whenever the month label read after the standard click equals the
label read before it, `click_next_month` performs the script-driven
fallback click (flag `true`) and returns normally with whatever label is
then displayed — even when that label is still unchanged — rather than
raising. -/
theorem C9_nav_stall (h0 h1 h2 : String) (y0 m0 y1 m1 y2 m2 : Nat)
    (p0 : get_year_month h0 = Except.ok (y0, m0))
    (p1 : get_year_month h1 = Except.ok (y1, m1))
    (p2 : get_year_month h2 = Except.ok (y2, m2))
    (stall : toString y1 ++ "年" ++ pad2 m1 ++ "月" = toString y0 ++ "年" ++ pad2 m0 ++ "月") :
    click_next_month h0 h1 h2 =
      Except.ok (true, toString y2 ++ "年" ++ pad2 m2 ++ "月") := by
  simp [click_next_month, get_month_label, p0, p1, p2, stall]

theorem C9_nav_stall_witness :
    click_next_month "2025年5月" "2025年5月" "2025年5月" = Except.ok (true, "2025年05月") :=
  C9_nav_stall "2025年5月" "2025年5月" "2025年5月" 2025 5 2025 5 2025 5 rfl rfl rfl rfl

/-- C2: the send path of the session loop never completes — evaluating
the arguments of `send_qq_email` resolves the global name
`RECEIVER_EMAIL`, which the module never binds (the import is spelled
`RECIEVER_EMAIL`), so the first cycle with availability and a changed
signature raises `NameError` instead of sending the email and updating
the last-sent signature. -/
theorem C2_send_path_name_error :
    session_step [("2025年05月", [("2025-05-03", "Saturday")])] none =
      Except.error "NameError: name RECEIVER_EMAIL is not defined" := rfl

/-- C1 counterexample: two well-formed scan results with identical
month-to-dates content but different insertion orders produce different
availability signatures, and `diff` reports a change. -/
theorem C1_counterexample :
    sameContent
        [("2025年05月", [("2025-05-03", "Saturday")]), ("2025年06月", [])]
        [("2025年06月", []), ("2025年05月", [("2025-05-03", "Saturday")])] ∧
    (scanKeys [("2025年05月", [("2025-05-03", "Saturday")]), ("2025年06月", [])]).Nodup ∧
    (scanKeys [("2025年06月", []), ("2025年05月", [("2025-05-03", "Saturday")])]).Nodup ∧
    diff [("2025年05月", [("2025-05-03", "Saturday")]), ("2025年06月", [])]
        [("2025年06月", []), ("2025年05月", [("2025-05-03", "Saturday")])] = true := by
  refine ⟨?_, by decide, by decide, by decide⟩
  intro k
  by_cases h5 : k = "2025年05月"
  · subst h5; rfl
  · by_cases h6 : k = "2025年06月"
    · subst h6; rfl
    · have e5 : (k == "2025年05月") = false := beq_eq_false_iff_ne.mpr h5
      have e6 : (k == "2025年06月") = false := beq_eq_false_iff_ne.mpr h6
      simp [List.lookup, e5, e6]

/-- C1 (amended): the availability signature is the identity serialization
of the ordered scan result, so `diff` reports no change exactly when the
two scan results agree as ordered sequences of (month, dates) entries;
identical content in a different internal order can differ. -/
theorem C1_diff_iff (A B : ScanResult) : diff A B = false ↔ A = B := by
  unfold diff
  rw [availability_signature_id, availability_signature_id]
  simp

theorem scan_go_reads (pg : Page) :
    ∀ k i found, (scan_go pg i k found).2.1 = k + 1 := by
  intro k
  induction k with
  | zero => intro i found; rfl
  | succ k ih => intro i found; simp [scan_go, ih]

theorem scan_go_clicks (pg : Page) :
    ∀ k i found, (scan_go pg i k found).2.2 = k := by
  intro k
  induction k with
  | zero => intro i found; rfl
  | succ k ih => intro i found; simp [scan_go, ih]

theorem posAfter_le_succ (pg : Page) (i : Nat) :
    posAfter pg i ≤ posAfter pg (i + 1) := by
  simp only [posAfter]
  exact Nat.le_add_right _ _

theorem posAfter_mono (pg : Page) :
    ∀ i j, i ≤ j → posAfter pg i ≤ posAfter pg j := by
  intro i j h
  induction h with
  | refl => exact Nat.le_refl _
  | step h ih => exact Nat.le_trans ih (posAfter_le_succ pg _)

theorem posAfter_id (pg : Page) :
    ∀ i, (∀ t, t < i → pg.advanceOk t = true) → posAfter pg i = i := by
  intro i
  induction i with
  | zero => intro _; rfl
  | succ i ih =>
    intro h
    simp only [posAfter, h i (Nat.lt_succ_self i),
      ih (fun t ht => h t (Nat.lt_succ_of_lt ht)), if_true]

theorem dictInsert_fresh (d : ScanResult) (k : String) (v : List (String × String))
    (h : ∀ p ∈ d, p.1 ≠ k) : dictInsert d k v = d ++ [(k, v)] := by
  unfold dictInsert
  rw [if_neg]
  simp only [List.any_eq_true, beq_iff_eq, not_exists, not_and]
  intro p hp
  exact h p hp

theorem scan_go_dict (pg : Page) :
    ∀ k i found,
      (∀ j, i ≤ j → j ≤ i + k → ∀ p ∈ found, p.1 ≠ (pg.months (posAfter pg j)).1) →
      (∀ j1 j2, i ≤ j1 → j1 < j2 → j2 ≤ i + k →
        (pg.months (posAfter pg j1)).1 ≠ (pg.months (posAfter pg j2)).1) →
      (scan_go pg i k found).1 =
        found ++ (List.range (k + 1)).map (fun t => pg.months (posAfter pg (i + t))) := by
  intro k
  induction k with
  | zero =>
    intro i found hfresh _
    have hf : ∀ p ∈ found, p.1 ≠ (pg.months (posAfter pg i)).1 :=
      hfresh i (Nat.le_refl i) (Nat.le_refl i)
    simp only [scan_go]
    rw [dictInsert_fresh _ _ _ hf]
    rw [show List.range 1 = [0] from rfl]
    simp
  | succ k ih =>
    intro i found hfresh hdist
    have hf : ∀ p ∈ found, p.1 ≠ (pg.months (posAfter pg i)).1 :=
      hfresh i (Nat.le_refl i) (Nat.le_add_right i (k + 1))
    have hstep :
        (scan_go pg (i + 1) k
            (found ++ [((pg.months (posAfter pg i)).1, (pg.months (posAfter pg i)).2)])).1 =
          (found ++ [((pg.months (posAfter pg i)).1, (pg.months (posAfter pg i)).2)]) ++
            (List.range (k + 1)).map (fun t => pg.months (posAfter pg (i + 1 + t))) := by
      apply ih
      · intro j hj1 hj2 p hp
        rcases List.mem_append.1 hp with hp | hp
        · exact hfresh j (Nat.le_of_succ_le hj1) (by omega) p hp
        · simp only [List.mem_singleton] at hp
          subst hp
          exact hdist i j (Nat.le_refl i) (by omega) (by omega)
      · intro j1 j2 h1 h2 h3
        exact hdist j1 j2 (by omega) h2 (by omega)
    simp only [scan_go, dictInsert_fresh _ _ _ hf]
    rw [hstep]
    rw [List.append_assoc]
    congr 1
    have hrange : List.range (k + 1 + 1) = 0 :: (List.range (k + 1)).map Nat.succ :=
      List.range_succ_eq_map (k + 1)
    rw [hrange]
    simp only [List.map_cons, List.map_map, Nat.add_zero, List.singleton_append]
    congr 1
    apply List.map_congr_left
    intro t _
    simp only [Function.comp]
    congr 2
    omega

/-- C3 counterexample: with a page whose first next-month click stalls
(the label stays in place, which `click_next_month` tolerates), the
scan reads `SCAN_NEXT_MONTHS + 1` months but the duplicate label
collapses in the dict, so the returned `ScanResult` has only 3 entries
instead of one per scanned month. -/
theorem C3_counterexample :
    (scan_months (Page.mk (fun j => ("L" ++ toString j, [])) (fun i => i != 0))).2.1 =
        SCAN_NEXT_MONTHS + 1 ∧
    (scan_months (Page.mk (fun j => ("L" ++ toString j, [])) (fun i => i != 0))).1.length = 3 ∧
    (scan_months (Page.mk (fun j => ("L" ++ toString j, [])) (fun i => i != 0))).1.length ≠
        SCAN_NEXT_MONTHS + 1 := by
  refine ⟨rfl, rfl, by decide⟩

/-- C3 (amended): one `scan_months` call always performs exactly
`SCAN_NEXT_MONTHS + 1` month reads and exactly `SCAN_NEXT_MONTHS`
next-month clicks, and the view position never moves backward; when
every click actually advances the view and the month labels of the
scanned views are pairwise distinct, the returned `ScanResult` has
exactly one entry per scanned month, in display order, with all
`SCAN_NEXT_MONTHS + 1` labels distinct.  When a click stalls, duplicate
labels collapse into a single dict entry. -/
theorem C3_scan_window (pg : Page)
    (hadv : ∀ t, t < SCAN_NEXT_MONTHS → pg.advanceOk t = true)
    (hinj : ∀ j1, j1 ≤ SCAN_NEXT_MONTHS → ∀ j2, j2 ≤ SCAN_NEXT_MONTHS →
      (pg.months j1).1 = (pg.months j2).1 → j1 = j2) :
    (scan_months pg).1 =
        (List.range (SCAN_NEXT_MONTHS + 1)).map (fun j => pg.months j) ∧
    ((scan_months pg).1.map Prod.fst).Nodup ∧
    (scan_months pg).2.1 = SCAN_NEXT_MONTHS + 1 ∧
    (scan_months pg).2.2 = SCAN_NEXT_MONTHS ∧
    (∀ i j, i ≤ j → posAfter pg i ≤ posAfter pg j) := by
  have hpos : ∀ j, j ≤ SCAN_NEXT_MONTHS → posAfter pg j = j := by
    intro j hj
    exact posAfter_id pg j (fun t ht => hadv t (by omega))
  have hdict : (scan_months pg).1 =
      (List.range (SCAN_NEXT_MONTHS + 1)).map (fun j => pg.months j) := by
    unfold scan_months
    rw [scan_go_dict pg SCAN_NEXT_MONTHS 0 []]
    · simp only [List.nil_append]
      apply List.map_congr_left
      intro t ht
      rw [List.mem_range] at ht
      rw [Nat.zero_add, hpos t (by omega)]
    · intro j _ _ p hp
      simp at hp
    · intro j1 j2 h1 h2 h3
      rw [Nat.zero_add] at h3
      rw [hpos j1 (by omega), hpos j2 (by omega)]
      intro heq
      have := hinj j1 (by omega) j2 (by omega) heq
      omega
  refine ⟨hdict, ?_, scan_go_reads pg _ _ _, scan_go_clicks pg _ _ _, posAfter_mono pg⟩
  rw [hdict, List.map_map]
  apply List.Nodup.map_on
  · intro x hx y hy hxy
    rw [List.mem_range] at hx hy
    exact hinj x (by omega) y (by omega) hxy
  · exact List.nodup_range (SCAN_NEXT_MONTHS + 1)

theorem C3_scan_window_witness :
    (scan_months (Page.mk (fun j => ("L" ++ toString j, [])) (fun _ => true))).1 =
        (List.range (SCAN_NEXT_MONTHS + 1)).map (fun j => ("L" ++ toString j, [])) ∧
    ((scan_months (Page.mk (fun j => ("L" ++ toString j, []))
        (fun _ => true))).1.map Prod.fst).Nodup ∧
    (scan_months (Page.mk (fun j => ("L" ++ toString j, [])) (fun _ => true))).2.1 =
        SCAN_NEXT_MONTHS + 1 ∧
    (scan_months (Page.mk (fun j => ("L" ++ toString j, [])) (fun _ => true))).2.2 =
        SCAN_NEXT_MONTHS ∧
    (∀ i j, i ≤ j →
      posAfter (Page.mk (fun j => ("L" ++ toString j, [])) (fun _ => true)) i ≤
        posAfter (Page.mk (fun j => ("L" ++ toString j, [])) (fun _ => true)) j) :=
  C3_scan_window (Page.mk (fun j => ("L" ++ toString j, [])) (fun _ => true))
    (fun _ _ => rfl) (by decide)

theorem format_email_foldl (results : ScanResult) :
    ∀ init t0,
      results.foldl format_step (init, t0) =
        (init ++ ((results.filter (fun mv => !mv.2.isEmpty)).map month_block).flatten,
         t0 + (results.map (fun mv => mv.2.length)).sum) := by
  induction results with
  | nil => intro init t0; simp
  | cons mv rest ih =>
    intro init t0
    by_cases h : mv.2.isEmpty
    · have hlen : mv.2.length = 0 := by
        rw [List.isEmpty_iff] at h
        simp [h]
      simp [format_step, h, ih, hlen]
    · rw [List.foldl_cons]
      have hstep : format_step (init, t0) mv = (init ++ month_block mv, t0 + mv.2.length) := by
        simp [format_step, h]
      rw [hstep, ih]
      simp [List.filter_cons, h, List.append_assoc, Nat.add_assoc]

/-- C7: `format_email` returns exactly the fixed sentinel string (and in
particular no month headers) when every month of the scan result is
empty; otherwise it lists exactly the non-empty months, each month
header followed by its indented date lines, then a total equal to the
number of listed dates, the check timestamp and the source URL.  The
output is a pure function of the scan result and the rendered clock
value. -/
theorem C7_format_report (now : String) (results : ScanResult) :
    ((∀ mv ∈ results, mv.2 = []) → format_email now results = "No available dates.") ∧
    ((∃ mv ∈ results, mv.2 ≠ []) →
      format_email now results =
        String.intercalate "\n"
          ("Available visa appointment dates:\n" ::
            (((results.filter (fun mv => !mv.2.isEmpty)).map month_block).flatten ++
              ["Total: " ++ toString ((results.map (fun mv => mv.2.length)).sum),
               "Checked at: " ++ now, "Page: " ++ URL]))) := by
  have hfold := format_email_foldl results ["Available visa appointment dates:\n"] 0
  constructor
  · intro hall
    have hsum : (results.map (fun mv => mv.2.length)).sum = 0 := by
      apply List.sum_eq_zero
      intro x hx
      rcases List.mem_map.1 hx with ⟨mv, hmv, hx⟩
      rw [← hx, hall mv hmv]
      rfl
    unfold format_email
    rw [hfold]
    simp [hsum]
  · rintro ⟨mv, hmem, hne⟩
    have hsum : (results.map (fun mv => mv.2.length)).sum ≠ 0 := by
      intro h0
      rw [List.sum_eq_zero_iff] at h0
      exact hne (List.length_eq_zero.1 (h0 mv.2.length (List.mem_map_of_mem _ hmem)))
    unfold format_email
    rw [hfold]
    simp only [Nat.zero_add, hsum, if_false]
    simp [List.append_assoc]

theorem C7_format_report_witness :
    (∀ mv ∈ ([("2025年05月", []), ("2025年06月", [])] : ScanResult), mv.2 = []) ∧
    format_email "2025-05-01 00:00:00" [("2025年05月", []), ("2025年06月", [])] =
      "No available dates." :=
  ⟨by decide,
   (C7_format_report "2025-05-01 00:00:00" [("2025年05月", []), ("2025年06月", [])]).1
     (by decide)⟩

theorem decDigit_bmp (d : Nat) : (decDigit d).toNat < 65536 := by
  unfold decDigit
  split <;> decide

theorem natDecimalAux_bmp :
    ∀ fuel n, ∀ c ∈ natDecimalAux fuel n, c.toNat < 65536 := by
  intro fuel
  induction fuel with
  | zero => intro n c hc; simp [natDecimalAux] at hc
  | succ fuel ih =>
    intro n c hc
    unfold natDecimalAux at hc
    by_cases h : n < 10
    · rw [if_pos h] at hc
      simp only [List.mem_singleton] at hc
      subst hc
      exact decDigit_bmp n
    · rw [if_neg h] at hc
      rcases List.mem_append.1 hc with hm | hm
      · exact ih (n / 10) c hm
      · simp only [List.mem_singleton] at hm
        subst hm
        exact decDigit_bmp (n % 10)

theorem natDecimal_bmp (n : Nat) : ∀ c ∈ natDecimal n, c.toNat < 65536 :=
  natDecimalAux_bmp (n + 1) n

theorem utf16Encode_bmp (l : List Char) (h : ∀ c ∈ l, c.toNat < 65536) :
    utf16Encode l = l.map Char.toNat := by
  induction l with
  | nil => rfl
  | cons c cs ih =>
    have hc : c.toNat < 65536 := h c (List.mem_cons_self c cs)
    have hcs := ih (fun x hx => h x (List.mem_cons_of_mem c hx))
    show utf16Units c ++ utf16Encode cs = c.toNat :: cs.map Char.toNat
    rw [hcs]
    unfold utf16Units
    rw [if_pos hc]
    rfl

/-- C10 counterexample: for an HTML string containing an astral-plane
character (here U+1F600), the Python baseline fingerprint measures 1
code point while the JS predicate measures 2 UTF-16 code units, so the
two cheap fingerprints disagree on the same content. -/
theorem C10_counterexample :
    utf16Encode (python_cheap_fp [Char.ofNat 128512]) ≠ js_cheap_fp [Char.ofNat 128512] := by
  decide

/-- C10 (amended): for every HTML string whose characters all lie in the
Basic Multilingual Plane, the Python baseline fingerprint of
`ensure_category_only` and the in-page JS cheap fingerprint of
`_wait_calendar_changed_and_stable` agree (compared as the JS engine
does, on UTF-16 code units), so the changed-wait cannot fire while the
region content still equals the baseline; with astral characters the
two can differ. -/
theorem C10_fp_agreement (html : List Char) (hbmp : ∀ c ∈ html, c.toNat < 65536) :
    utf16Encode (python_cheap_fp html) = js_cheap_fp html := by
  have hcolon : (':').toNat < 65536 := by decide
  have hfp : ∀ c ∈ python_cheap_fp html, c.toNat < 65536 := by
    intro c hc
    unfold python_cheap_fp at hc
    rcases List.mem_append.1 hc with hc | hc
    · rcases List.mem_append.1 hc with hc | hc
      · rcases List.mem_append.1 hc with hc | hc
        · rcases List.mem_append.1 hc with hc | hc
          · exact natDecimal_bmp html.length c hc
          · simp only [List.mem_singleton] at hc
            subst hc
            exact hcolon
        · exact hbmp c (List.take_subset 64 html hc)
      · simp only [List.mem_singleton] at hc
        subst hc
        exact hcolon
    · by_cases h64 : 64 ≤ html.length
      · rw [if_pos h64] at hc
        exact hbmp c (List.drop_subset _ html hc)
      · rw [if_neg h64] at hc
        exact hbmp c hc
  rw [utf16Encode_bmp _ hfp]
  have hu : utf16Encode html = html.map Char.toNat := utf16Encode_bmp html hbmp
  unfold python_cheap_fp js_cheap_fp
  rw [hu]
  have hcmap : List.map Char.toNat [':'] = [58] := rfl
  simp only [List.map_append, List.map_take, List.map_drop, List.length_map, hcmap]
  by_cases h64 : 64 ≤ html.length
  · rw [if_pos h64, List.map_drop]
  · rw [if_neg h64]
    have h0 : html.length - 64 = 0 := by omega
    rw [h0]
    simp

theorem C10_fp_agreement_witness :
    utf16Encode (python_cheap_fp ['a', 'b']) = js_cheap_fp ['a', 'b'] :=
  C10_fp_agreement ['a', 'b'] (by decide)

theorem char_eq_of_toNat_eq {a b : Char} (h : a.toNat = b.toNat) : a = b :=
  Char.eq_of_val_eq (UInt32.ext h)

theorem strLtList_irrefl : ∀ l, strLtList l l = false := by
  intro l
  induction l with
  | nil => rfl
  | cons a as ih => simp [strLtList, ih]

theorem strLtList_trans :
    ∀ as bs cs, strLtList as bs = true → strLtList bs cs = true → strLtList as cs = true := by
  intro as
  induction as with
  | nil =>
    intro bs cs hab hbc
    cases bs with
    | nil => exact hbc
    | cons b bs =>
      cases cs with
      | nil => simp [strLtList] at hbc
      | cons c cs => rfl
  | cons a as ih =>
    intro bs cs hab hbc
    cases bs with
    | nil => simp [strLtList] at hab
    | cons b bs =>
      cases cs with
      | nil => simp [strLtList] at hbc
      | cons c cs =>
        simp only [strLtList] at hab hbc ⊢
        by_cases h1 : a.toNat < b.toNat
        · by_cases h2 : b.toNat < c.toNat
          · rw [if_pos (by omega)]
          · rw [if_neg h2] at hbc
            by_cases h3 : c.toNat < b.toNat
            · rw [if_pos h3] at hbc; cases hbc
            · rw [if_pos (by omega)]
        · rw [if_neg h1] at hab
          by_cases h1r : b.toNat < a.toNat
          · rw [if_pos h1r] at hab; cases hab
          · rw [if_neg h1r] at hab
            have hba : a.toNat = b.toNat := by omega
            by_cases h2 : b.toNat < c.toNat
            · rw [if_pos (by omega)]
            · rw [if_neg h2] at hbc
              by_cases h3 : c.toNat < b.toNat
              · rw [if_pos h3] at hbc; cases hbc
              · rw [if_neg h3] at hbc
                rw [if_neg (by omega), if_neg (by omega)]
                exact ih bs cs hab hbc

theorem strLtList_trichotomy :
    ∀ as bs, strLtList as bs = true ∨ as = bs ∨ strLtList bs as = true := by
  intro as
  induction as with
  | nil =>
    intro bs
    cases bs with
    | nil => right; left; rfl
    | cons b bs => left; rfl
  | cons a as ih =>
    intro bs
    cases bs with
    | nil => right; right; rfl
    | cons b bs =>
      rcases Nat.lt_trichotomy a.toNat b.toNat with h | h | h
      · left; simp [strLtList, h]
      · have hab : a = b := char_eq_of_toNat_eq h
        subst hab
        rcases ih bs with h2 | h2 | h2
        · left; simp [strLtList, h2]
        · right; left; rw [h2]
        · right; right; simp [strLtList, h2]
      · right; right; simp [strLtList, h]

theorem strLt_irrefl (s : String) : strLt s s = false :=
  strLtList_irrefl s.toList

theorem strLt_trans {a b c : String} (h1 : strLt a b = true) (h2 : strLt b c = true) :
    strLt a c = true :=
  strLtList_trans a.toList b.toList c.toList h1 h2

theorem strLt_trichotomy (a b : String) :
    strLt a b = true ∨ a = b ∨ strLt b a = true := by
  cases a with
  | mk da =>
    cases b with
    | mk db =>
      rcases strLtList_trichotomy da db with h | h | h
      · left; exact h
      · right; left; exact congrArg String.mk h
      · right; right; exact h

theorem pairLt_irrefl (a : String × String) : pairLt a a = false := by
  simp [pairLt, strLt_irrefl]

theorem pairLt_trans (a b c : String × String)
    (h1 : pairLt a b = true) (h2 : pairLt b c = true) : pairLt a c = true := by
  simp only [pairLt, Bool.or_eq_true, Bool.and_eq_true, beq_iff_eq] at h1 h2 ⊢
  rcases h1 with h1 | ⟨h1e, h1s⟩
  · rcases h2 with h2 | ⟨h2e, h2s⟩
    · exact Or.inl (strLt_trans h1 h2)
    · exact Or.inl (h2e ▸ h1)
  · rcases h2 with h2 | ⟨h2e, h2s⟩
    · exact Or.inl (h1e ▸ h2)
    · exact Or.inr ⟨h1e.trans h2e, strLt_trans h1s h2s⟩

theorem pairLt_trichotomy (a b : String × String) :
    pairLt a b = true ∨ a = b ∨ pairLt b a = true := by
  rcases strLt_trichotomy a.1 b.1 with h | h | h
  · left; simp [pairLt, h]
  · rcases strLt_trichotomy a.2 b.2 with h2 | h2 | h2
    · left; simp [pairLt, h, h2]
    · right; left; exact Prod.ext h h2
    · right; right; simp [pairLt, h.symm, h2]
  · right; right; simp [pairLt, h]

theorem mem_sortedInsert (x z : String × String) :
    ∀ l, z ∈ sortedInsert x l ↔ z = x ∨ z ∈ l := by
  intro l
  induction l with
  | nil => simp [sortedInsert]
  | cons y ys ih =>
    unfold sortedInsert
    by_cases h1 : pairLt x y = true
    · rw [if_pos h1]
      simp [List.mem_cons]
    · rw [if_neg h1]
      by_cases h2 : x = y
      · rw [if_pos h2]
        subst h2
        simp [List.mem_cons]
      · rw [if_neg h2]
        simp [List.mem_cons, ih]
        tauto

theorem pairwise_sortedInsert (x : String × String) :
    ∀ l, l.Pairwise (fun a b => pairLt a b = true) →
      (sortedInsert x l).Pairwise (fun a b => pairLt a b = true) := by
  intro l
  induction l with
  | nil => intro _; simp [sortedInsert]
  | cons y ys ih =>
    intro hp
    rcases List.pairwise_cons.1 hp with ⟨hy, hys⟩
    unfold sortedInsert
    by_cases h1 : pairLt x y = true
    · rw [if_pos h1]
      refine List.pairwise_cons.2 ⟨?_, hp⟩
      intro z hz
      rcases List.mem_cons.1 hz with rfl | hz
      · exact h1
      · exact pairLt_trans x y z h1 (hy z hz)
    · rw [if_neg h1]
      by_cases h2 : x = y
      · rw [if_pos h2]
        exact hp
      · rw [if_neg h2]
        have hyx : pairLt y x = true := by
          rcases pairLt_trichotomy x y with h | h | h
          · exact absurd h h1
          · exact absurd h h2
          · exact h
        refine List.pairwise_cons.2 ⟨?_, ih hys⟩
        intro z hz
        rcases (mem_sortedInsert x z ys).1 hz with rfl | hz
        · exact hyx
        · exact hy z hz

theorem mem_sorted_set (z : String × String) :
    ∀ l, z ∈ sorted_set l ↔ z ∈ l := by
  intro l
  induction l with
  | nil => simp [sorted_set]
  | cons a as ih =>
    show z ∈ sortedInsert a (sorted_set as) ↔ _
    rw [mem_sortedInsert]
    simp [ih, List.mem_cons]

theorem pairwise_sorted_set :
    ∀ l, (sorted_set l).Pairwise (fun a b => pairLt a b = true) := by
  intro l
  induction l with
  | nil => simp [sorted_set]
  | cons a as ih => exact pairwise_sortedInsert a (sorted_set as) ih

theorem daysInMonth_le_31 (y m : Nat) : daysInMonth y m ≤ 31 := by
  unfold daysInMonth
  split_ifs <;> omega

theorem pad2_data_inj :
    ∀ d1, d1 < 32 → ∀ d2, d2 < 32 → (pad2 d1).data = (pad2 d2).data → d1 = d2 := by
  decide

theorem isoDate_day_inj (y m d1 d2 : Nat) (h1 : d1 < 32) (h2 : d2 < 32)
    (h : isoDate y m d1 = isoDate y m d2) : d1 = d2 := by
  unfold isoDate at h
  have hdata := congrArg String.data h
  simp only [String.data_append] at hdata
  exact pad2_data_inj d1 h1 d2 h2 (List.append_cancel_left hdata)

theorem extract_entry_shape (y m : Nat) (t : String) (e : String × String)
    (h : extract_entry y m t = some e) :
    ∃ d, dateValid y m d ∧ e = (isoDate y m d, dowName y m d) := by
  unfold extract_entry at h
  rcases hs : searchDay (pyStrip t.toList) with _ | d
  · rw [hs] at h; cases h
  · rw [hs] at h
    have h2 : (if dateValid y m d then some (isoDate y m d, dowName y m d) else none) =
        some e := h
    by_cases hv : dateValid y m d
    · rw [if_pos hv] at h2
      exact ⟨d, hv, (Option.some_inj.1 h2).symm⟩
    · rw [if_neg hv] at h2; cases h2

/-- C5: for every month scan, `available_dates_current_month` returns
exactly the entries whose day-cell text yields a bounded one-or-two
digit number forming a valid calendar date (markers without such a
number, or with an invalid date, are skipped), strictly sorted in
ascending date order and with no two entries sharing an ISO date. -/
theorem C5_scan_dedup_sorted (year month : Nat) (texts : List String) :
    (∀ e, e ∈ available_dates_current_month year month texts ↔
      e ∈ texts.filterMap (extract_entry year month)) ∧
    (available_dates_current_month year month texts).Pairwise
      (fun a b => strLt a.1 b.1 = true) ∧
    (available_dates_current_month year month texts).Pairwise
      (fun a b => a.1 ≠ b.1) ∧
    (∀ t, t ∈ texts → searchDay (pyStrip t.toList) = none →
      extract_entry year month t = none) ∧
    (∀ t, t ∈ texts → ∀ d, searchDay (pyStrip t.toList) = some d →
      ¬ dateValid year month d → extract_entry year month t = none) := by
  have hmem : ∀ e, e ∈ available_dates_current_month year month texts ↔
      e ∈ texts.filterMap (extract_entry year month) := fun e =>
    mem_sorted_set e (texts.filterMap (extract_entry year month))
  have hshape : ∀ e ∈ texts.filterMap (extract_entry year month),
      ∃ d, dateValid year month d ∧ e = (isoDate year month d, dowName year month d) := by
    intro e he
    rcases List.mem_filterMap.1 he with ⟨t, _, hex⟩
    exact extract_entry_shape year month t e hex
  have hfst : (available_dates_current_month year month texts).Pairwise
      (fun a b => strLt a.1 b.1 = true) := by
    refine List.Pairwise.imp_of_mem ?_
      (pairwise_sorted_set (texts.filterMap (extract_entry year month)))
    intro a b ha hb hab
    rcases hshape a ((hmem a).1 ha) with ⟨d1, hv1, rfl⟩
    rcases hshape b ((hmem b).1 hb) with ⟨d2, hv2, rfl⟩
    have hab2 : strLt (isoDate year month d1) (isoDate year month d2) = true ∨
        (isoDate year month d1 = isoDate year month d2 ∧
          strLt (dowName year month d1) (dowName year month d2) = true) := by
      simpa [pairLt] using hab
    rcases hab2 with h | ⟨heq, hsnd⟩
    · exact h
    · exfalso
      have hd1 : d1 ≤ daysInMonth year month := hv1.2.2.2.2.2
      have hd2 : d2 ≤ daysInMonth year month := hv2.2.2.2.2.2
      have hle := daysInMonth_le_31 year month
      have : d1 = d2 :=
        isoDate_day_inj year month d1 d2 (by omega) (by omega) heq
      subst this
      rw [strLt_irrefl] at hsnd
      cases hsnd
  refine ⟨hmem, hfst, ?_, ?_, ?_⟩
  · refine hfst.imp ?_
    intro a b h
    intro hfsteq
    rw [hfsteq, strLt_irrefl] at h
    cases h
  · intro t _ hs
    unfold extract_entry
    rw [hs]
  · intro t _ d hs hv
    unfold extract_entry
    rw [hs]
    show (if dateValid year month d then some (isoDate year month d, dowName year month d)
        else none) = (none : Option (String × String))
    rw [if_neg hv]

theorem C5_scan_dedup_sorted_witness :
    extract_entry 2025 2 "abc" = none ∧
    extract_entry 2025 2 "30" = none ∧
    (available_dates_current_month 2025 2 ["abc", "30", "3"]).Pairwise
      (fun a b => a.1 ≠ b.1) :=
  ⟨(C5_scan_dedup_sorted 2025 2 ["abc", "30", "3"]).2.2.2.1 "abc" (by simp) rfl,
   (C5_scan_dedup_sorted 2025 2 ["abc", "30", "3"]).2.2.2.2 "30" (by simp) 30 rfl (by decide),
   (C5_scan_dedup_sorted 2025 2 ["abc", "30", "3"]).2.2.1⟩

end JpVisa
